import Mathlib

/-!
Shallow embedding of the analysis engine of the ExcelDashAnalyze repository:
the server-side statistics helpers in `server/routes.ts` (namespace `Server`)
and the client-side chart/statistics utilities in
`client/src/lib/chart-utils.ts` (namespace `Client`).

JavaScript numbers are modelled as exact rationals (`ℚ`); a possibly-NaN
JavaScript number is modelled as `Option ℚ` with `none` standing for `NaN`.
`undefined` and `null` are collapsed into the single constructor
`RawValue.null`: every operation modelled here treats them identically
(both fail the `v !== null && v !== undefined` filters, both are falsy).
-/

/- Batteries marks the `Rat` arithmetic operations `@[irreducible]`, which
blocks `decide`/`rfl` evaluation of concrete rational computations. Restoring
the default reducibility is sound (the kernel never respects reducibility
attributes); it only lets concrete statistics evaluate. -/
set_option allowUnsafeReducibility true in
attribute [semireducible] Rat.add Rat.mul Rat.inv Rat.sub Rat.ofScientific

/-- A spreadsheet cell value as it reaches the analysis code: one of the
dynamic JavaScript types that can occur in a parsed sheet. `date t` models a
JS `Date` object with millisecond timestamp `t`. -/
inductive RawValue where
  | null
  | str (s : String)
  | num (q : ℚ)
  | bool (b : Bool)
  | date (t : Int)
deriving DecidableEq, Repr

/-- Whitespace skipped by `parseFloat`. -/
def isWs (c : Char) : Bool :=
  c = ' ' || c = '\t' || c = '\n' || c = '\r'

/-- Value of a list of decimal digit characters, most significant first. -/
def digitsToNat (ds : List Char) : Nat :=
  ds.foldl (fun n c => 10 * n + (c.toNat - 48)) 0

/-- The exponent part accepted by `parseFloat` after the mantissa: `e`/`E`,
optional sign, digits. An `e` not followed by digits contributes exponent 0
(JS `parseFloat` stops before an incomplete exponent). -/
def expOf : List Char → Int
  | 'e' :: r => expTail r
  | 'E' :: r => expTail r
  | _ => 0
where
  expTail : List Char → Int
    | '-' :: r2 =>
      let d := r2.takeWhile Char.isDigit
      if d.isEmpty then 0 else -(digitsToNat d : Int)
    | '+' :: r2 =>
      let d := r2.takeWhile Char.isDigit
      if d.isEmpty then 0 else (digitsToNat d : Int)
    | r2 =>
      let d := r2.takeWhile Char.isDigit
      if d.isEmpty then 0 else (digitsToNat d : Int)

/-- JavaScript `parseFloat` on a string: skip leading whitespace, optional
sign, decimal mantissa, optional exponent; parse the longest valid prefix and
ignore the rest; `none` models `NaN` (no digits found). `Infinity` literals
are not modelled (no claim exercises them). -/
def jsParseFloat (s : String) : Option ℚ :=
  let cs := s.data.dropWhile isWs
  let sc : ℚ × List Char :=
    match cs with
    | '-' :: r => (-1, r)
    | '+' :: r => (1, r)
    | _ => (1, cs)
  let ip := sc.2.takeWhile Char.isDigit
  let cs2 := sc.2.dropWhile Char.isDigit
  let fc : List Char × List Char :=
    match cs2 with
    | '.' :: r => (r.takeWhile Char.isDigit, r.dropWhile Char.isDigit)
    | _ => ([], cs2)
  if ip.isEmpty && fc.1.isEmpty then none
  else
    let mant : ℚ := (digitsToNat ip : ℚ) + (digitsToNat fc.1 : ℚ) / ((10 : ℚ) ^ fc.1.length)
    some (sc.1 * mant * (10 : ℚ) ^ (expOf fc.2))

/-- `s.replace(/[$,]/g, '')`: drop every dollar sign and comma. -/
def stripDollarComma (s : String) : String :=
  String.mk (s.data.filter (fun c => !(c = '$' || c = ',')))

/-- JavaScript truthiness of a cell value (`0`, `false`, `''`,
`null`/`undefined` are falsy; every other modelled value is truthy —
in particular `Date` objects always are). -/
def jsFalsy : RawValue → Bool
  | .null => true
  | .str s => s = ""
  | .num q => q = 0
  | .bool b => !b
  | .date _ => false

/-- The filter `v !== null && v !== undefined && v !== ''` used by both the
server and the client statistics code. Only strings compare strictly equal
to `''`, so `0` and `false` are kept. -/
def isNonNull : RawValue → Bool
  | .null => false
  | .str s => decide (s ≠ "")
  | _ => true

/-- JavaScript `String(v)`. Non-integral numbers are rendered as
`num/den`, a placeholder for JS decimal float formatting: no claim and no
counterexample in this file applies `String` to a non-integral number.
Likewise `date` stringification is a placeholder. -/
def jsString : RawValue → String
  | .null => "null"
  | .str s => s
  | .bool b => if b then "true" else "false"
  | .num q => if q.den = 1 then toString q.num else toString q.num ++ "/" ++ toString q.den
  | .date t => "Date(" ++ toString t ++ ")"

/-- `parseFloat(v)` applied to an arbitrary value: JS first converts the
argument to a string, so booleans (`"true"`/`"false"`), `null`/`undefined`
(`"null"`/`"undefined"`) and `Date` objects (`"Mon Jan ..."`) all give `NaN`;
a number round-trips through its own decimal representation. -/
def jsParseFloatAny : RawValue → Option ℚ
  | .str s => jsParseFloat s
  | .num q => some q
  | _ => none

/-- The coercion in `typeof v === 'string' ? parseFloat(v) : v` followed by
the `!isNaN(v)` filter (server statistics): a non-string value is kept as-is
and later arithmetic coerces it numerically, so a boolean contributes 0/1 and
a `Date` its timestamp; `none` means the value is discarded as `NaN`. -/
def toNumeric : RawValue → Option ℚ
  | .str s => jsParseFloat s
  | .num q => some q
  | .bool b => some (if b then 1 else 0)
  | .date t => some (t : ℚ)
  | .null => none

/-- Client variant: strings are parsed after stripping `$` and `,`
(`parseFloat(v.replace(/[$,]/g, ''))`). -/
def toNumericClient : RawValue → Option ℚ
  | .str s => jsParseFloat (stripDollarComma s)
  | .num q => some q
  | .bool b => some (if b then 1 else 0)
  | .date t => some (t : ℚ)
  | .null => none

/-- A row record: association list from header name to cell value. -/
abbrev Row : Type := List (String × RawValue)

/-- `row[column]`: a missing key yields `undefined`, collapsed to
`RawValue.null` (see the file header). -/
def getCell (r : Row) (k : String) : RawValue :=
  match List.lookup k r with
  | some v => v
  | none => .null

/-- `isNaN` on a JS number modelled as `Option ℚ` (`none` = `NaN`). -/
def jsIsNaN (o : Option ℚ) : Bool := o.isNone

/-- `x || d` for a JS number `x` and a non-zero-free default: if `x` is falsy
(`NaN`, `0`, `-0`) the default is taken. The result is never `NaN`. -/
def jsOrNum (o : Option ℚ) (d : ℚ) : Option ℚ :=
  match o with
  | none => some d
  | some q => if q = 0 then some d else some q

/-- `Math.round`: round half toward positive infinity. -/
def jsRound (q : ℚ) : Int := ⌊q + 1 / 2⌋

/-- `s.toLowerCase()`, as a character map (ASCII-adequate). -/
def lowerString (s : String) : String := String.mk (s.data.map Char.toLower)

/-- Insert `x` before the first element `y` with `le x y` (after every
element `x` must not precede). With `le x y` = "the sort comparator on
`(x, y)` returns ≤ 0", this is exactly where a stable sort puts an incoming
earlier element. -/
def insertBy (le : α → α → Bool) (x : α) : List α → List α
  | [] => [x]
  | y :: ys => if le x y then x :: y :: ys else y :: insertBy le x ys

/-- Stable insertion sort: the model of JS `Array.prototype.sort`, which
ES2019 requires to be stable. `le a b` means "the comparator keeps `a`
before `b`". -/
def sortBy (le : α → α → Bool) (l : List α) : List α := l.foldr (insertBy le) []

/-- One step of `acc[key] = (acc[key] || 0) + 1` on an insertion-ordered
association list: bump the key's count, or append it with count 1. -/
def bump : List (String × Nat) → String → List (String × Nat)
  | [], k => [(k, 1)]
  | (k', c) :: rest, k =>
    if k' = k then (k', c + 1) :: rest else (k', c) :: bump rest k

/-- The frequency map built by `reduce((acc, v) => {acc[v] = (acc[v] || 0) + 1})`,
as an association list in key insertion order. -/
def countsList (ks : List String) : List (String × Nat) := ks.foldl bump []

/-- Whether a string is a canonical array-index property key in JavaScript:
the decimal representation of an integer in `[0, 2^32 - 2]` with no leading
zero. Such keys enumerate before all other own keys, in ascending numeric
order. -/
def isCanonicalIndex (s : String) : Bool :=
  !s.data.isEmpty && s.data.all Char.isDigit &&
    (s = "0" || s.data.head? ≠ some '0') && digitsToNat s.data < 4294967295

/-- `Object.entries` / `Object.keys` enumeration order over a frequency map:
canonical array-index keys in ascending numeric order first, then the
remaining keys in insertion order. -/
def entriesJS (l : List (String × Nat)) : List (String × Nat) :=
  sortBy (fun a b => decide (digitsToNat a.1.data ≤ digitsToNat b.1.data))
      (l.filter (fun e => isCanonicalIndex e.1))
    ++ l.filter (fun e => !isCanonicalIndex e.1)

/-- `Math.max(...Object.values(counts))`, as a fold (the branch using it
guarantees a nonempty map, so the `-Infinity` base case never matters). -/
def maxCountOf (es : List (String × Nat)) : Nat :=
  es.foldl (fun m e => Nat.max m e.2) 0

/-- `Object.keys(counts).find(key => counts[key] === maxCount)`: the first
key in enumeration order whose count is maximal. The frequency map is built
over `String(v)` for each value `v` (JS object indexing stringifies keys). -/
def textMode (nonNullValues : List RawValue) : Option String :=
  let es := entriesJS (countsList (nonNullValues.map jsString))
  (es.find? (fun e => decide (e.2 = maxCountOf es))).map Prod.fst

/-- A column statistics record. Every field the two implementations may or
may not emit is an `Option`; `none` means the JS object lacks the field.
The JS `standardDeviation` field (`Math.sqrt(variance)`) is not stored:
it is the nonnegative square root of `variance`, stated via
`isStandardDeviation`. -/
structure ColumnStats where
  count : Nat
  nullCount : Nat
  uniqueCount : Nat
  mean : Option ℚ
  min : Option ℚ
  max : Option ℚ
  range : Option ℚ
  median : Option ℚ
  variance : Option ℚ
  mode : Option String
  averageLength : Option ℚ
deriving DecidableEq, Repr

/-- `s` is the value of the JS `standardDeviation` field of `st`: the
nonnegative square root of the computed variance (exact whenever the
variance is a perfect rational square, as in every claim below). -/
def isStandardDeviation (st : ColumnStats) (s : ℚ) : Prop :=
  0 ≤ s ∧ st.variance = some (s * s)

namespace Server

/-- `calculateColumnStatistics` from `server/routes.ts` (lines 139-183).
Strings are parsed with plain `parseFloat` (no `$`/`,` stripping); the
numeric branch runs whenever at least one value survives the `!isNaN`
filter, else the text branch whenever a non-null value exists. The server
text branch computes `mode` but no `averageLength`. -/
def calculateColumnStatistics (values : List RawValue) : ColumnStats :=
  let nonNullValues := values.filter isNonNull
  let numericValues := nonNullValues.filterMap toNumeric
  let count := values.length
  let nullCount := values.length - nonNullValues.length
  let uniqueCount := nonNullValues.dedup.length
  if numericValues.length > 0 then
    let sorted := sortBy (fun a b => decide (a ≤ b)) numericValues
    let sum : ℚ := numericValues.foldl (· + ·) 0
    let mean : ℚ := sum / (numericValues.length : ℚ)
    let mn : ℚ := sorted.getD 0 0
    let mx : ℚ := sorted.getD (sorted.length - 1) 0
    let mid := sorted.length / 2
    let median : ℚ :=
      if sorted.length % 2 = 0 then (sorted.getD (mid - 1) 0 + sorted.getD mid 0) / 2
      else sorted.getD mid 0
    let variance : ℚ :=
      (numericValues.foldl (fun acc v => acc + (v - mean) * (v - mean)) 0) /
        (numericValues.length : ℚ)
    { count := count, nullCount := nullCount, uniqueCount := uniqueCount,
      mean := some mean, min := some mn, max := some mx, range := some (mx - mn),
      median := some median, variance := some variance, mode := none,
      averageLength := none }
  else if nonNullValues.length > 0 then
    { count := count, nullCount := nullCount, uniqueCount := uniqueCount,
      mean := none, min := none, max := none, range := none, median := none,
      variance := none, mode := textMode nonNullValues, averageLength := none }
  else
    { count := count, nullCount := nullCount, uniqueCount := uniqueCount,
      mean := none, min := none, max := none, range := none, median := none,
      variance := none, mode := none, averageLength := none }

/-- The dataset summary record of `calculateSummaryStats`. `dataQuality` is
`Option Int` because the JS computation yields `NaN` (here `none`) when the
header list is empty while rows exist. -/
structure SummaryStats where
  totalRecords : Nat
  totalColumns : Nat
  numericColumns : Nat
  textColumns : Nat
  missingValues : Nat
  dataQuality : Option Int
deriving DecidableEq, Repr

/-- The per-header test `numericValues.length > nonNullValues.length * 0.5`
of `calculateSummaryStats` (`0.5` is exact in binary floating point, so the
rational model is faithful). -/
def columnIsNumericForSummary (data : List Row) (h : String) : Bool :=
  let columnValues := data.map (fun r => getCell r h)
  let nonNullValues := columnValues.filter isNonNull
  let numericValues := nonNullValues.filterMap toNumeric
  decide ((numericValues.length : ℚ) > (nonNullValues.length : ℚ) * (1 / 2))

/-- The number of missing (null/undefined/empty-string) cells of one column. -/
def columnMissing (data : List Row) (h : String) : Nat :=
  let columnValues := data.map (fun r => getCell r h)
  columnValues.length - (columnValues.filter isNonNull).length

/-- `calculateSummaryStats` from `server/routes.ts` (lines 186-222). -/
def calculateSummaryStats (headers : List String) (data : List Row) : SummaryStats :=
  let totalRecords := data.length
  let totalColumns := headers.length
  let numericColumns := (headers.filter (columnIsNumericForSummary data)).length
  let textColumns := (headers.filter (fun h => !columnIsNumericForSummary data h)).length
  let totalMissingValues := (headers.map (columnMissing data)).sum
  let dataQuality : Option Int :=
    if totalRecords > 0 then
      if totalRecords * totalColumns = 0 then none
      else
        some (jsRound ((((totalRecords * totalColumns : ℚ) - (totalMissingValues : ℚ)) /
          ((totalRecords * totalColumns : ℚ))) * 100))
    else some 100
  { totalRecords := totalRecords, totalColumns := totalColumns,
    numericColumns := numericColumns, textColumns := textColumns,
    missingValues := totalMissingValues, dataQuality := dataQuality }

end Server

/-- `List.map` with the element index, as produced by JS `Array.map((v, i) => ...)`. -/
def mapIdxFrom (i : Nat) (f : Nat → α → β) : List α → List β
  | [] => []
  | a :: as => f i a :: mapIdxFrom (i + 1) f as

/-- The four chart types of `chart-utils.ts`. -/
inductive ChartType where
  | bar
  | line
  | pie
  | scatter
deriving DecidableEq, Repr

/-- A bar/line/pie chart point `{name, value}`. The value is a JS number
(`Option ℚ`, `none` = `NaN`). -/
structure ChartDataPoint where
  name : String
  value : Option ℚ
deriving DecidableEq, Repr

/-- A scatter point `{name, value, x, y}`. -/
structure ScatterPoint where
  name : String
  value : Option ℚ
  x : Option ℚ
  y : Option ℚ
deriving DecidableEq, Repr

namespace Client

/-- The boolean test of `detectColumnType`: a native boolean, or a string
whose lowercase form is one of `true`, `false`, `yes`, `no`, `1`, `0`. -/
def isBooleanToken : RawValue → Bool
  | .bool _ => true
  | .str s => decide (lowerString s ∈ ["true", "false", "yes", "no", "1", "0"])
  | _ => false

/-- The numeric test of `detectColumnType`: a native number, or a string
parsing to a number after `$`/`,` stripping. -/
def isNumericToken : RawValue → Bool
  | .num _ => true
  | .str s => (jsParseFloat (stripDollarComma s)).isSome
  | _ => false

/-- The date test of `detectColumnType`: a native `Date`, or a string the
(abstracted) `new Date(s)` parser accepts. -/
def isDateToken (parseDate : String → Bool) : RawValue → Bool
  | .date _ => true
  | .str s => parseDate s
  | _ => false

/-- `detectColumnType` from `chart-utils.ts` (lines 223-258). `parseDate`
abstracts `!isNaN(new Date(s).getTime())`, whose string-parsing behavior is
implementation-defined in JS; every other part is modelled concretely.
Thresholds are modelled as exact rationals. -/
def detectColumnType (values : List RawValue) (parseDate : String → Bool) : String :=
  let nonNullValues := values.filter isNonNull
  if nonNullValues.length = 0 then "text" else
  let booleanValues := nonNullValues.filter isBooleanToken
  if (booleanValues.length : ℚ) > (nonNullValues.length : ℚ) * (4 / 5) then "boolean" else
  let numericValues := nonNullValues.filter isNumericToken
  if (numericValues.length : ℚ) > (nonNullValues.length : ℚ) * (4 / 5) then "number" else
  let dateValues := nonNullValues.filter (isDateToken parseDate)
  if (dateValues.length : ℚ) > (nonNullValues.length : ℚ) * (4 / 5) then "date" else
  "text"

/-- `calculateColumnStatistics` from `chart-utils.ts` (lines 260-314): the
branch is selected by the caller-supplied `columnType`; strings are parsed
with `$`/`,` stripping; the text branch emits both `mode` and
`averageLength`. -/
def calculateColumnStatistics (values : List RawValue) (columnType : String) : ColumnStats :=
  let nonNullValues := values.filter isNonNull
  let count := values.length
  let nullCount := values.length - nonNullValues.length
  let uniqueCount := nonNullValues.dedup.length
  let numericValues := nonNullValues.filterMap toNumericClient
  if columnType = "number" ∧ numericValues.length > 0 then
    let sorted := sortBy (fun a b => decide (a ≤ b)) numericValues
    let sum : ℚ := numericValues.foldl (· + ·) 0
    let mean : ℚ := sum / (numericValues.length : ℚ)
    let variance : ℚ :=
      (numericValues.foldl (fun acc v => acc + (v - mean) * (v - mean)) 0) /
        (numericValues.length : ℚ)
    let mn : ℚ := sorted.getD 0 0
    let mx : ℚ := sorted.getD (sorted.length - 1) 0
    let mid := sorted.length / 2
    let median : ℚ :=
      if sorted.length % 2 = 0 then (sorted.getD (mid - 1) 0 + sorted.getD mid 0) / 2
      else sorted.getD mid 0
    { count := count, nullCount := nullCount, uniqueCount := uniqueCount,
      mean := some mean, min := some mn, max := some mx, range := some (mx - mn),
      median := some median, variance := some variance, mode := none,
      averageLength := none }
  else if columnType = "text" then
    { count := count, nullCount := nullCount, uniqueCount := uniqueCount,
      mean := none, min := none, max := none, range := none, median := none,
      variance := none, mode := textMode nonNullValues,
      averageLength :=
        some (((nonNullValues.map (fun v => (jsString v).length)).sum : ℚ) /
          (nonNullValues.length : ℚ)) }
  else
    { count := count, nullCount := nullCount, uniqueCount := uniqueCount,
      mean := none, min := none, max := none, range := none, median := none,
      variance := none, mode := none, averageLength := none }

/-- One bar point: the name is `String(row[xColumn] || "Item " + (index+1))`,
the value `parseFloat(row[yColumn]) || 0`. -/
def barPointOf (xColumn yColumn : String) (index : Nat) (row : Row) : ChartDataPoint :=
  { name :=
      if jsFalsy (getCell row xColumn) then "Item " ++ toString (index + 1)
      else jsString (getCell row xColumn),
    value := jsOrNum (jsParseFloatAny (getCell row yColumn)) 0 }

/-- `prepareBarChartData` from `chart-utils.ts` (lines 29-42). The value has
been defaulted by `|| 0` and is never `NaN`, so the trailing `!isNaN` filter
keeps every point. -/
def prepareBarChartData (data : List Row) (xColumn yColumn : String) (limit : Nat) :
    List ChartDataPoint :=
  (mapIdxFrom 0 (barPointOf xColumn yColumn) (data.take limit)).filter
    (fun p => !jsIsNaN p.value)

/-- `prepareLineChartData` from `chart-utils.ts` (lines 44-57); the falsy
fallback for the name is the bare index. -/
def prepareLineChartData (data : List Row) (xColumn yColumn : String) (limit : Nat) :
    List ChartDataPoint :=
  (mapIdxFrom 0 (fun index row =>
      { name :=
          if jsFalsy (getCell row xColumn) then toString index
          else jsString (getCell row xColumn),
        value := jsOrNum (jsParseFloatAny (getCell row yColumn)) 0 })
    (data.take limit)).filter (fun p => !jsIsNaN p.value)

/-- The pie grouping key `String(row[column] || 'Unknown')`. -/
def pieKey (v : RawValue) : String :=
  if jsFalsy v then "Unknown" else jsString v

/-- The grouping keys of the pie projection, one per row. -/
def pieKeysOf (data : List Row) (column : String) : List String :=
  data.map (fun row => pieKey (getCell row column))

/-- `Object.entries(groups)` for the pie frequency map, in JS enumeration
order. -/
def pieEntries (data : List Row) (column : String) : List (String × Nat) :=
  entriesJS (countsList (pieKeysOf data column))

/-- The sorted entry list of `preparePieChartData` before the `limit` cut:
`Object.entries(groups).sort(([,a],[,b]) => b - a)` — a stable sort by
descending count over the enumeration order of the frequency map. -/
def pieSortedEntries (data : List Row) (column : String) : List (String × Nat) :=
  sortBy (fun a b => decide (b.2 ≤ a.2)) (pieEntries data column)

/-- `preparePieChartData` from `chart-utils.ts` (lines 59-74). -/
def preparePieChartData (data : List Row) (column : String) (limit : Nat) :
    List ChartDataPoint :=
  ((pieSortedEntries data column).take limit).map
    (fun e => { name := e.1, value := some (e.2 : ℚ) })

/-- `prepareScatterData` from `chart-utils.ts` (lines 76-91). Both
coordinates are `parseFloat(...) || 0` and hence never `NaN`; the
`!isNaN(x) && !isNaN(y)` filter therefore keeps every point. -/
def scatterPointOf (xColumn yColumn : String) (row : Row) : ScatterPoint :=
  let rx := getCell row xColumn
  let ry := getCell row yColumn
  { name := jsString rx ++ ", " ++ jsString ry,
    value := jsOrNum (jsParseFloatAny ry) 0,
    x := jsOrNum (jsParseFloatAny rx) 0,
    y := jsOrNum (jsParseFloatAny ry) 0 }

/-- `prepareScatterData`, continued: map then filter. -/
def prepareScatterData (data : List Row) (xColumn yColumn : String) (limit : Nat) :
    List ScatterPoint :=
  ((data.take limit).map (scatterPointOf xColumn yColumn)).filter
    (fun p => !jsIsNaN p.x && !jsIsNaN p.y)

/-- The number of values in `vs` for which `parseFloat(v)` is not `NaN`
(`vs.filter(v => !isNaN(parseFloat(v))).length`). -/
def numericCount (vs : List RawValue) : Nat :=
  (vs.filter (fun v => (jsParseFloatAny v).isSome)).length

/-- `getOptimalChartType` from `chart-utils.ts` (lines 93-130), the ordered
cascade with thresholds 0.8, 0.5, 20, 10 (thresholds as exact rationals). -/
def getOptimalChartType (data : List Row) (xColumn yColumn : String) : ChartType :=
  if data.length = 0 then .bar else
  let xValues := data.map (fun r => getCell r xColumn)
  let yValues := data.map (fun r => getCell r yColumn)
  let xNumeric : ℚ := (numericCount xValues : ℚ) / (xValues.length : ℚ)
  let yNumeric : ℚ := (numericCount yValues : ℚ) / (yValues.length : ℚ)
  let uniqueXValues := xValues.dedup.length
  let totalXValues := xValues.length
  if xNumeric > 4 / 5 ∧ yNumeric > 4 / 5 ∧ totalXValues > 20 then .scatter
  else if (uniqueXValues : ℚ) < (totalXValues : ℚ) * (1 / 2) ∧ yNumeric > 4 / 5 then .bar
  else if xNumeric > 4 / 5 ∧ yNumeric > 4 / 5 then .line
  else if uniqueXValues < 10 ∧ uniqueXValues > 1 then .pie
  else .bar

end Client

/-- The type-inference cascade as the specification words it (claim C7):
discard null/undefined/empty entries, `text` when none remain, then the
boolean, number and date checks in that order, each firing when its matching
count strictly exceeds 0.8 times the non-null count, and `text` when none
fires. Written from the claim for comparison with
`Client.detectColumnType`. -/
def specDetectColumnType (values : List RawValue) (parseDate : String → Bool) : String :=
  let nonNull := values.filter isNonNull
  if nonNull = [] then "text"
  else if ((nonNull.filter Client.isBooleanToken).length : ℚ) > (4 / 5) * (nonNull.length : ℚ) then
    "boolean"
  else if ((nonNull.filter Client.isNumericToken).length : ℚ) > (4 / 5) * (nonNull.length : ℚ) then
    "number"
  else if ((nonNull.filter (Client.isDateToken parseDate)).length : ℚ) > (4 / 5) * (nonNull.length : ℚ) then
    "date"
  else "text"

/-- The optimal-chart-type cascade as the specification words it (claim C5):
empty rows give `bar`; else scatter when both numeric fractions exceed 0.8
and the row count exceeds 20; else bar when the distinct-x fraction is below
0.5 and the y fraction exceeds 0.8; else line when both fractions exceed
0.8; else pie when the distinct x-value count is strictly between 1 and 10;
else bar. Written from the claim for comparison with
`Client.getOptimalChartType`. -/
def specChooseType (data : List Row) (xColumn yColumn : String) : ChartType :=
  if data = [] then .bar else
  let xs := data.map (fun r => getCell r xColumn)
  let ys := data.map (fun r => getCell r yColumn)
  let xFrac : ℚ := (Client.numericCount xs : ℚ) / (data.length : ℚ)
  let yFrac : ℚ := (Client.numericCount ys : ℚ) / (data.length : ℚ)
  let uniqueX := xs.dedup.length
  if xFrac > 4 / 5 ∧ yFrac > 4 / 5 ∧ data.length > 20 then .scatter
  else if (uniqueX : ℚ) / (data.length : ℚ) < 1 / 2 ∧ yFrac > 4 / 5 then .bar
  else if xFrac > 4 / 5 ∧ yFrac > 4 / 5 then .line
  else if 1 < uniqueX ∧ uniqueX < 10 then .pie
  else .bar

/-! ### Lemmas about the stable insertion sort -/

theorem sortBy_cons {α : Type _} (le : α → α → Bool) (x : α) (l : List α) :
    sortBy le (x :: l) = insertBy le x (sortBy le l) := rfl

theorem insertBy_perm {α : Type _} (le : α → α → Bool) (x : α) (l : List α) :
    List.Perm (insertBy le x l) (x :: l) := by
  induction l with
  | nil => exact .refl _
  | cons y ys ih =>
    simp only [insertBy]
    split
    · exact .refl _
    · exact (ih.cons y).trans (List.Perm.swap x y ys)

theorem sortBy_perm {α : Type _} (le : α → α → Bool) (l : List α) :
    List.Perm (sortBy le l) l := by
  induction l with
  | nil => exact .refl _
  | cons x xs ih =>
    rw [sortBy_cons]
    exact (insertBy_perm le x (sortBy le xs)).trans (ih.cons x)

theorem mem_insertBy {α : Type _} (le : α → α → Bool) {x a : α} {l : List α} :
    a ∈ insertBy le x l ↔ a = x ∨ a ∈ l := by
  rw [(insertBy_perm le x l).mem_iff, List.mem_cons]

theorem pairwise_insertBy {α : Type _} {le : α → α → Bool}
    (htr : ∀ a b c, le a b = true → le b c = true → le a c = true)
    (hto : ∀ a b, le a b = false → le b a = true) (x : α) {l : List α}
    (hl : l.Pairwise (fun a b => le a b = true)) :
    (insertBy le x l).Pairwise (fun a b => le a b = true) := by
  induction l with
  | nil => simp [insertBy]
  | cons y ys ih =>
    rcases List.pairwise_cons.mp hl with ⟨hy, hys⟩
    simp only [insertBy]
    split
    · rename_i hxy
      refine List.pairwise_cons.mpr ⟨?_, hl⟩
      intro z hz
      rcases List.mem_cons.mp hz with rfl | hz
      · exact hxy
      · exact htr _ _ _ hxy (hy z hz)
    · rename_i hxy
      refine List.pairwise_cons.mpr ⟨?_, ih hys⟩
      intro z hz
      rcases (mem_insertBy le).mp hz with rfl | hz
      · exact hto _ _ (Bool.not_eq_true _ ▸ hxy)
      · exact hy z hz

theorem sortBy_pairwise {α : Type _} {le : α → α → Bool}
    (htr : ∀ a b c, le a b = true → le b c = true → le a c = true)
    (hto : ∀ a b, le a b = false → le b a = true) (l : List α) :
    (sortBy le l).Pairwise (fun a b => le a b = true) := by
  induction l with
  | nil => simp [sortBy]
  | cons y ys ih =>
    rw [sortBy_cons]
    exact pairwise_insertBy htr hto y ih

theorem filter_insertBy_count {x : String × Nat} {l : List (String × Nat)} (c : Nat) :
    (insertBy (fun a b => decide (b.2 ≤ a.2)) x l).filter (fun e => decide (e.2 = c)) =
      if x.2 = c then x :: l.filter (fun e => decide (e.2 = c))
      else l.filter (fun e => decide (e.2 = c)) := by
  induction l with
  | nil => by_cases hx : x.2 = c <;> simp [insertBy, hx]
  | cons y ys ih =>
    simp only [insertBy]
    split
    · rename_i hle
      by_cases hx : x.2 = c <;> simp [List.filter_cons, hx]
    · rename_i hle
      have hyx : x.2 < y.2 := by simpa using hle
      by_cases hx : x.2 = c
      · have hy : ¬ (y.2 = c) := by omega
        simp [List.filter_cons, hx, hy, ih]
      · by_cases hy : y.2 = c <;> simp [List.filter_cons, hx, hy, ih]

theorem filter_sortBy_count (l : List (String × Nat)) (c : Nat) :
    (sortBy (fun a b => decide (b.2 ≤ a.2)) l).filter (fun e => decide (e.2 = c)) =
      l.filter (fun e => decide (e.2 = c)) := by
  induction l with
  | nil => rfl
  | cons x xs ih =>
    rw [sortBy_cons, filter_insertBy_count c]
    split <;> rename_i hx <;> simp [List.filter_cons, hx, ih]

/-! ### Lemmas about the frequency map -/

theorem bump_keys (acc : List (String × Nat)) (k : String) :
    (bump acc k).map Prod.fst =
      if k ∈ acc.map Prod.fst then acc.map Prod.fst else acc.map Prod.fst ++ [k] := by
  induction acc with
  | nil => simp [bump]
  | cons e rest ih =>
    obtain ⟨k', c⟩ := e
    by_cases h : k' = k
    · subst h
      simp [bump, List.mem_cons]
    · have hkk : ¬ (k = k') := fun hh => h hh.symm
      by_cases hm : k ∈ rest.map Prod.fst <;>
        simp [bump, h, hkk, hm, ih, List.mem_cons]

theorem bump_lookup_self (acc : List (String × Nat)) (k : String) :
    List.lookup k (bump acc k) = some (((List.lookup k acc).getD 0) + 1) := by
  induction acc with
  | nil => simp [bump, List.lookup]
  | cons e rest ih =>
    obtain ⟨k', c⟩ := e
    simp only [bump]
    by_cases h : k' = k
    · subst h
      simp [List.lookup]
    · have hne : (k == k') = false := by simpa using fun hh => h hh.symm
      simp [List.lookup, h, hne, ih]

theorem bump_lookup_ne (acc : List (String × Nat)) {k k' : String} (h : k' ≠ k) :
    List.lookup k' (bump acc k) = List.lookup k' acc := by
  induction acc with
  | nil =>
    have hne : (k' == k) = false := by simpa using h
    simp [bump, List.lookup, hne]
  | cons e rest ih =>
    obtain ⟨k'', c⟩ := e
    simp only [bump]
    by_cases h2 : k'' = k
    · subst h2
      have hne : (k' == k'') = false := by simpa using h
      simp [List.lookup, hne]
    · by_cases h3 : k' = k''
      · subst h3
        simp [List.lookup, h2]
      · have hne : (k' == k'') = false := by simpa using h3
        simp [List.lookup, h2, hne, ih]

theorem foldl_bump_lookup (ks : List String) :
    ∀ (acc : List (String × Nat)) (k : String),
      (List.lookup k (ks.foldl bump acc)).getD 0 =
        ((List.lookup k acc).getD 0) + List.count k ks := by
  induction ks with
  | nil => intro acc k; simp
  | cons a ks ih =>
    intro acc k
    simp only [List.foldl_cons]
    rw [ih (bump acc a) k]
    by_cases hk : k = a
    · subst hk
      rw [bump_lookup_self]
      simp [List.count_cons]
      omega
    · rw [bump_lookup_ne acc hk]
      have : (a == k) = false := by simpa using fun hh => hk hh.symm
      simp [List.count_cons, this]

theorem countsList_lookup_getD (ks : List String) (k : String) :
    (List.lookup k (countsList ks)).getD 0 = List.count k ks := by
  simpa [List.lookup] using foldl_bump_lookup ks [] k

theorem foldl_bump_keys_mem (ks : List String) :
    ∀ (acc : List (String × Nat)) (k : String),
      k ∈ (ks.foldl bump acc).map Prod.fst ↔ k ∈ acc.map Prod.fst ∨ k ∈ ks := by
  induction ks with
  | nil => intro acc k; simp
  | cons a ks ih =>
    intro acc k
    simp only [List.foldl_cons]
    rw [ih (bump acc a) k, bump_keys]
    by_cases ha : a ∈ acc.map Prod.fst
    · simp only [ha, if_true, List.mem_cons]
      constructor
      · rintro (h | h)
        · exact .inl h
        · exact .inr (.inr h)
      · rintro (h | rfl | h)
        · exact .inl h
        · exact .inl ha
        · exact .inr h
    · simp only [ha, if_false, List.mem_append, List.mem_singleton, List.mem_cons]
      tauto

theorem countsList_keys_mem (ks : List String) (k : String) :
    k ∈ (countsList ks).map Prod.fst ↔ k ∈ ks := by
  have := foldl_bump_keys_mem ks [] k
  simpa [countsList] using this

theorem foldl_bump_keys_nodup (ks : List String) :
    ∀ (acc : List (String × Nat)), (acc.map Prod.fst).Nodup →
      ((ks.foldl bump acc).map Prod.fst).Nodup := by
  induction ks with
  | nil => intro acc h; simpa
  | cons a ks ih =>
    intro acc h
    simp only [List.foldl_cons]
    refine ih (bump acc a) ?_
    rw [bump_keys]
    split
    · exact h
    · rename_i ha
      simp [List.nodup_append, h, ha]

theorem countsList_keys_nodup (ks : List String) : ((countsList ks).map Prod.fst).Nodup :=
  foldl_bump_keys_nodup ks [] (by simp)

theorem lookup_eq_of_mem_nodup {l : List (String × Nat)} (hn : (l.map Prod.fst).Nodup)
    {k : String} {c : Nat} (hm : (k, c) ∈ l) : List.lookup k l = some c := by
  induction l with
  | nil => cases hm
  | cons e rest ih =>
    obtain ⟨k', c'⟩ := e
    rcases List.mem_cons.mp hm with he | hm2
    · obtain ⟨rfl, rfl⟩ := Prod.mk.injEq .. ▸ he
      simp [List.lookup]
    · have hk : k ≠ k' := by
        rintro rfl
        have : k ∈ rest.map Prod.fst := List.mem_map.mpr ⟨(k, c), hm2, rfl⟩
        exact (List.nodup_cons.mp (by simpa using hn)).1 this
      have hne : (k == k') = false := by simpa using hk
      simp only [List.lookup, hne]
      exact ih (List.nodup_cons.mp (by simpa using hn)).2 hm2

theorem mem_of_lookup_eq_some {l : List (String × Nat)} {k : String} {c : Nat}
    (h : List.lookup k l = some c) : (k, c) ∈ l := by
  induction l with
  | nil => simp [List.lookup] at h
  | cons e rest ih =>
    obtain ⟨k', c'⟩ := e
    by_cases hk : k = k'
    · subst hk
      simp [List.lookup] at h
      simp [h]
    · have hne : (k == k') = false := by simpa using hk
      simp only [List.lookup, hne] at h
      exact List.mem_cons.mpr (.inr (ih h))

theorem lookup_isSome_iff {l : List (String × Nat)} {k : String} :
    (List.lookup k l).isSome ↔ k ∈ l.map Prod.fst := by
  induction l with
  | nil => simp [List.lookup]
  | cons e rest ih =>
    obtain ⟨k', c'⟩ := e
    by_cases hk : k = k'
    · subst hk
      simp [List.lookup]
    · have hne : (k == k') = false := by simpa using hk
      simp [List.lookup, hne, ih, hk]

theorem bump_sum (acc : List (String × Nat)) (k : String) :
    ((bump acc k).map Prod.snd).sum = ((acc.map Prod.snd).sum) + 1 := by
  induction acc with
  | nil => simp [bump]
  | cons e rest ih =>
    obtain ⟨k', c⟩ := e
    simp only [bump]
    by_cases h : k' = k
    · simp [h]
      omega
    · simp [h, ih]
      omega

theorem countsList_sum (ks : List String) : ((countsList ks).map Prod.snd).sum = ks.length := by
  suffices h : ∀ (acc : List (String × Nat)),
      ((ks.foldl bump acc).map Prod.snd).sum = (acc.map Prod.snd).sum + ks.length by
    simpa [countsList] using h []
  induction ks with
  | nil => intro acc; simp
  | cons a ks ih =>
    intro acc
    simp only [List.foldl_cons]
    rw [ih (bump acc a), bump_sum]
    simp only [List.length_cons]
    omega

theorem countsList_count_of_mem {ks : List String} {k : String} {c : Nat}
    (h : (k, c) ∈ countsList ks) : c = List.count k ks := by
  have hl := lookup_eq_of_mem_nodup (countsList_keys_nodup ks) h
  have := countsList_lookup_getD ks k
  rw [hl] at this
  simpa using this

theorem mem_countsList_of_mem {ks : List String} {k : String} (h : k ∈ ks) :
    (k, List.count k ks) ∈ countsList ks := by
  have hmem : k ∈ (countsList ks).map Prod.fst := (countsList_keys_mem ks k).mpr h
  have hsome := lookup_isSome_iff.mpr hmem
  obtain ⟨c, hc⟩ := Option.isSome_iff_exists.mp hsome
  have := countsList_lookup_getD ks k
  rw [hc] at this
  simp at this
  subst this
  exact mem_of_lookup_eq_some hc

/-! ### Enumeration order, maxima, and the mode -/

theorem entriesJS_perm (l : List (String × Nat)) : List.Perm (entriesJS l) l := by
  unfold entriesJS
  exact ((sortBy_perm _ _).append (.refl _)).trans (List.filter_append_perm _ l)

theorem le_foldl_max (es : List (String × Nat)) :
    ∀ a : Nat, a ≤ es.foldl (fun m e => Nat.max m e.2) a := by
  induction es with
  | nil => intro a; simp
  | cons e es ih =>
    intro a
    calc a ≤ Nat.max a e.2 := Nat.le_max_left _ _
    _ ≤ es.foldl (fun m e => Nat.max m e.2) (Nat.max a e.2) := ih _

theorem mem_le_foldl_max (es : List (String × Nat)) :
    ∀ (a : Nat) (e : String × Nat), e ∈ es → e.2 ≤ es.foldl (fun m e => Nat.max m e.2) a := by
  induction es with
  | nil => intro a e h; cases h
  | cons x es ih =>
    intro a e h
    rcases List.mem_cons.mp h with rfl | h
    · calc e.2 ≤ Nat.max a e.2 := Nat.le_max_right _ _
      _ ≤ _ := le_foldl_max es _
    · exact ih _ e h

theorem foldl_max_attained (es : List (String × Nat)) :
    ∀ a : Nat, es.foldl (fun m e => Nat.max m e.2) a = a ∨
      ∃ e ∈ es, es.foldl (fun m e => Nat.max m e.2) a = e.2 := by
  induction es with
  | nil => intro a; exact .inl rfl
  | cons x es ih =>
    intro a
    rcases ih (Nat.max a x.2) with h | ⟨e, he, hv⟩
    · simp only [List.foldl_cons]
      rcases Nat.le_total x.2 a with hle | hle
      · exact .inl (h.trans (Nat.max_eq_left hle))
      · exact .inr ⟨x, List.mem_cons_self x es, h.trans (Nat.max_eq_right hle)⟩
    · exact .inr ⟨e, List.mem_cons.mpr (.inr he), hv⟩

theorem maxCountOf_mem_le {es : List (String × Nat)} {e : String × Nat} (h : e ∈ es) :
    e.2 ≤ maxCountOf es := mem_le_foldl_max es 0 e h

theorem maxCountOf_attained {es : List (String × Nat)} (h : es ≠ []) :
    ∃ e ∈ es, e.2 = maxCountOf es := by
  unfold maxCountOf
  rcases foldl_max_attained es 0 with h0 | ⟨e, he, hv⟩
  · obtain ⟨x, xs, rfl⟩ := List.exists_cons_of_ne_nil h
    refine ⟨x, List.mem_cons_self x xs, ?_⟩
    have hle := mem_le_foldl_max (x :: xs) 0 x (List.mem_cons_self x xs)
    omega
  · exact ⟨e, he, hv.symm⟩

theorem countsList_ne_nil {ks : List String} (h : ks ≠ []) : countsList ks ≠ [] := by
  intro hc
  have := countsList_sum ks
  rw [hc] at this
  simp at this
  exact h (List.length_eq_zero.mp this.symm)

/-- The full characterization of `textMode` on a nonempty value list: it
returns some key whose frequency (over the `String(v)` forms) is maximal. -/
theorem textMode_spec {nonNull : List RawValue} (h : nonNull ≠ []) :
    ∃ m, textMode nonNull = some m ∧
      (∀ v ∈ nonNull, List.count (jsString v) (nonNull.map jsString) ≤
        List.count m (nonNull.map jsString)) := by
  have hksne : nonNull.map jsString ≠ [] := by
    simpa [List.map_eq_nil_iff] using h
  have hperm : List.Perm (entriesJS (countsList (nonNull.map jsString)))
      (countsList (nonNull.map jsString)) := entriesJS_perm _
  have hesne : entriesJS (countsList (nonNull.map jsString)) ≠ [] := by
    intro he
    apply countsList_ne_nil hksne
    have hlen := hperm.length_eq
    rw [he] at hlen
    exact List.length_eq_zero.mp hlen.symm
  obtain ⟨e0, he0, hv0⟩ := maxCountOf_attained hesne
  have hfind : (List.find?
      (fun e => decide (e.2 = maxCountOf (entriesJS (countsList (nonNull.map jsString)))))
      (entriesJS (countsList (nonNull.map jsString)))).isSome := by
    rw [List.find?_isSome]
    exact ⟨e0, he0, by simpa using hv0⟩
  obtain ⟨e1, he1⟩ := Option.isSome_iff_exists.mp hfind
  have he1p : e1.2 = maxCountOf (entriesJS (countsList (nonNull.map jsString))) := by
    simpa using List.find?_some he1
  have he1m : e1 ∈ entriesJS (countsList (nonNull.map jsString)) :=
    List.mem_of_find?_eq_some he1
  have he1c : e1.2 = List.count e1.1 (nonNull.map jsString) :=
    countsList_count_of_mem (hperm.mem_iff.mp he1m)
  refine ⟨e1.1, ?_, ?_⟩
  · simp only [textMode]
    rw [he1]
    rfl
  · intro v hv
    have hkv : jsString v ∈ nonNull.map jsString := List.mem_map_of_mem jsString hv
    have hmem : (jsString v, List.count (jsString v) (nonNull.map jsString)) ∈
        entriesJS (countsList (nonNull.map jsString)) :=
      hperm.mem_iff.mpr (mem_countsList_of_mem hkv)
    have hle := maxCountOf_mem_le hmem
    simp only at hle
    omega

/-! ### Plumbing lemmas for the chart projections -/

theorem length_mapIdxFrom {α β : Type _} (f : Nat → α → β) (l : List α) :
    ∀ i, (mapIdxFrom i f l).length = l.length := by
  induction l with
  | nil => intro i; rfl
  | cons a as ih => intro i; simp [mapIdxFrom, ih]

theorem getElem?_mapIdxFrom {α β : Type _} (f : Nat → α → β) (l : List α) :
    ∀ i j, (mapIdxFrom j f l)[i]? = (l[i]?).map (f (j + i)) := by
  induction l with
  | nil => intro i j; simp [mapIdxFrom]
  | cons a as ih =>
    intro i j
    cases i with
    | zero => simp [mapIdxFrom]
    | succ i =>
      simp only [mapIdxFrom, List.getElem?_cons_succ]
      rw [ih i (j + 1)]
      have hji : j + 1 + i = j + (i + 1) := by omega
      rw [hji]

theorem jsOrNum_isSome (o : Option ℚ) (d : ℚ) : (jsOrNum o d).isSome := by
  cases o with
  | none => rfl
  | some q =>
    simp only [jsOrNum]
    split <;> rfl

theorem jsIsNaN_jsOrNum (o : Option ℚ) (d : ℚ) : jsIsNaN (jsOrNum o d) = false := by
  cases o with
  | none => rfl
  | some q =>
    simp only [jsOrNum, jsIsNaN]
    split <;> rfl

/-- The `!isNaN(item.value)` filter of the bar projection keeps every point:
the value has already been defaulted by `|| 0`. -/
theorem prepareBarChartData_filter_id (data : List Row) (xColumn yColumn : String)
    (limit : Nat) :
    Client.prepareBarChartData data xColumn yColumn limit =
      mapIdxFrom 0 (Client.barPointOf xColumn yColumn) (data.take limit) := by
  unfold Client.prepareBarChartData
  rw [List.filter_eq_self]
  intro p hp
  have haux : ∀ (l : List Row) (j : Nat),
      p ∈ mapIdxFrom j (Client.barPointOf xColumn yColumn) l → (!jsIsNaN p.value) = true := by
    intro l
    induction l with
    | nil => intro j h; cases h
    | cons a as ih =>
      intro j h
      rcases List.mem_cons.mp h with rfl | h
      · simp [Client.barPointOf, jsIsNaN_jsOrNum]
      · exact ih (j + 1) h
  exact haux _ 0 hp

/-- The `!isNaN` filter of the scatter projection keeps every point: both
coordinates have already been defaulted by `|| 0`. -/
theorem prepareScatterData_filter_id (data : List Row) (xColumn yColumn : String)
    (limit : Nat) :
    Client.prepareScatterData data xColumn yColumn limit =
      (data.take limit).map (Client.scatterPointOf xColumn yColumn) := by
  unfold Client.prepareScatterData
  rw [List.filter_eq_self]
  intro p hp
  obtain ⟨row, _, rfl⟩ := List.mem_map.mp hp
  simp [Client.scatterPointOf, jsIsNaN_jsOrNum]

/-! ### The claims -/

/-- Claim C1: for the dataset with headers `["Region","Sales"]` and rows
`[{Region:"East",Sales:"100"}, {Region:"East",Sales:"200"},
{Region:"West",Sales:null}]`, the Sales column statistics are exactly
count=3, nullCount=1, mean=150, min=100, max=200, median=150, variance=2500,
standardDeviation=50, and the dataset summary is exactly totalRecords=3,
totalColumns=2, missingValues=1, dataQuality=83. -/
theorem claim_C1 :
    (Server.calculateColumnStatistics
      ([[("Region", .str "East"), ("Sales", .str "100")],
        [("Region", .str "East"), ("Sales", .str "200")],
        [("Region", .str "West"), ("Sales", .null)]].map
          (fun r => getCell r "Sales")) =
      { count := 3, nullCount := 1, uniqueCount := 2, mean := some 150,
        min := some 100, max := some 200, range := some 100, median := some 150,
        variance := some 2500, mode := none, averageLength := none }) ∧
    isStandardDeviation (Server.calculateColumnStatistics
      ([[("Region", .str "East"), ("Sales", .str "100")],
        [("Region", .str "East"), ("Sales", .str "200")],
        [("Region", .str "West"), ("Sales", .null)]].map
          (fun r => getCell r "Sales"))) 50 ∧
    Server.calculateSummaryStats ["Region", "Sales"]
      [[("Region", .str "East"), ("Sales", .str "100")],
       [("Region", .str "East"), ("Sales", .str "200")],
       [("Region", .str "West"), ("Sales", .null)]] =
      { totalRecords := 3, totalColumns := 2, numericColumns := 1, textColumns := 1,
        missingValues := 1, dataQuality := some 83 } := by
  refine ⟨by decide, ⟨by norm_num, by decide⟩, by decide⟩

/-- Claim C2, counterexample: for the column `["a","b","1"]` only one of the
three non-null values parses as a number (a fraction of 1/3 ≤ 50%), yet the
server statistics take the numeric branch (`mean` is present): the numeric
branch fires whenever at least one value parses, not only above 50%. -/
theorem claim_C2_counterexample :
    (Server.calculateColumnStatistics [.str "a", .str "b", .str "1"]).mean = some 1 ∧
    2 * (([RawValue.str "a", .str "b", .str "1"].filter isNonNull).filterMap toNumeric).length ≤
      ([RawValue.str "a", .str "b", .str "1"].filter isNonNull).length := by
  exact ⟨by decide, by decide⟩

/-- Claim C2, amended: the server column statistics produce the numeric
branch iff at least one non-null value parses as a number (not iff more than
50% do); otherwise the text branch iff a non-null value exists; the client
variant instead branches on the caller-supplied column type together with
at least one value parsing. -/
theorem claim_C2_amended (values : List RawValue) :
    ((Server.calculateColumnStatistics values).mean.isSome ↔
      (values.filter isNonNull).filterMap toNumeric ≠ []) ∧
    ((Server.calculateColumnStatistics values).mode.isSome ↔
      ((values.filter isNonNull).filterMap toNumeric = [] ∧ values.filter isNonNull ≠ [])) ∧
    (∀ columnType : String,
      (Client.calculateColumnStatistics values columnType).mean.isSome ↔
        (columnType = "number" ∧
          (values.filter isNonNull).filterMap toNumericClient ≠ [])) := by
  refine ⟨?_, ?_, ?_⟩
  · by_cases h1 : ((values.filter isNonNull).filterMap toNumeric).length > 0
    · simp only [Server.calculateColumnStatistics, if_pos h1]
      simpa using List.ne_nil_of_length_pos h1
    · simp only [Server.calculateColumnStatistics, if_neg h1]
      have hnil : (values.filter isNonNull).filterMap toNumeric = [] := by
        rcases hF : (values.filter isNonNull).filterMap toNumeric with _ | ⟨a, l⟩
        · rfl
        · rw [hF] at h1; simp at h1
      split_ifs with h2 <;> simp [hnil]
  · by_cases h1 : ((values.filter isNonNull).filterMap toNumeric).length > 0
    · have hne : (values.filter isNonNull).filterMap toNumeric ≠ [] :=
        List.ne_nil_of_length_pos h1
      simp only [Server.calculateColumnStatistics, if_pos h1]
      simp [hne]
    · have hnum : (values.filter isNonNull).filterMap toNumeric = [] := by
        rcases hF : (values.filter isNonNull).filterMap toNumeric with _ | ⟨a, l⟩
        · rfl
        · rw [hF] at h1; simp at h1
      by_cases h2 : (values.filter isNonNull).length > 0
      · have hne : values.filter isNonNull ≠ [] := List.ne_nil_of_length_pos h2
        obtain ⟨m, hm, _⟩ := textMode_spec hne
        simp only [Server.calculateColumnStatistics, if_neg h1, if_pos h2]
        simp [hm, hnum, hne]
      · have hnil : values.filter isNonNull = [] := by
          rcases hF : values.filter isNonNull with _ | ⟨a, l⟩
          · rfl
          · rw [hF] at h2; simp at h2
        simp only [Server.calculateColumnStatistics, if_neg h1, if_neg h2]
        simp [hnil]
  · intro columnType
    by_cases h1 : columnType = "number" ∧
        ((values.filter isNonNull).filterMap toNumericClient).length > 0
    · simp only [Client.calculateColumnStatistics, if_pos h1]
      exact iff_of_true (by simp) ⟨h1.1, List.ne_nil_of_length_pos h1.2⟩
    · simp only [Client.calculateColumnStatistics, if_neg h1]
      have hx : ¬ (columnType = "number" ∧
          (values.filter isNonNull).filterMap toNumericClient ≠ []) := by
        intro hand
        exact h1 ⟨hand.1, List.length_pos.mpr hand.2⟩
      split_ifs with h2
      · exact iff_of_false (by simp) hx
      · exact iff_of_false (by simp) hx

/-- Claim C3: the scatter projection is claimed to exclude points whose
coordinates fail to parse; in fact `parseFloat(...) || 0` turns `NaN` into
`0` before the `!isNaN` filter runs, so the filter is dead and the point
appears with a defaulted coordinate. At rows `[{X:"abc",Y:"1"}]` the emitted
point is `{x: 0, y: 1}` although `"abc"` does not parse. -/
theorem claim_C3 :
    Client.prepareScatterData [[("X", .str "abc"), ("Y", .str "1")]] "X" "Y" 100 =
      [{ name := "abc, 1", value := some 1, x := some 0, y := some 1 }] ∧
    jsParseFloatAny (.str "abc") = none := by
  exact ⟨by decide, by decide⟩

/-- Claim C4, counterexample: a chart request naming columns absent from the
row raises nothing — `prepareBarChartData` returns a normal point with a
synthetic name and value 0 — and a structurally invalid input (empty header
list with a non-empty row) is processed by `calculateSummaryStats` into an
ordinary summary record (with `NaN` quality), not a signalled error. The
repository defines no `StructuralInputError` or `UnknownColumnError`. -/
theorem claim_C4_counterexample :
    Client.prepareBarChartData [[("A", .str "x")]] "Missing" "AlsoMissing" 20 =
      [{ name := "Item 1", value := some 0 }] ∧
    Server.calculateSummaryStats [] [[("A", .str "x")]] =
      { totalRecords := 1, totalColumns := 0, numericColumns := 0, textColumns := 0,
        missingValues := 0, dataQuality := none } := by
  exact ⟨by decide, by decide⟩

/-- Claim C4, amended: the engine surfaces no failures at all: every
operation is total, and even structurally invalid inputs or unknown columns
produce ordinary results (the summary always reports the record and column
counts; a bar or scatter request always returns exactly
`min limit data.length` points, since their `!isNaN` filters are dead).
Malformed cell values never raise. -/
theorem claim_C4_amended (headers : List String) (data : List Row)
    (xColumn yColumn : String) (limit : Nat) :
    (Server.calculateSummaryStats headers data).totalRecords = data.length ∧
    (Server.calculateSummaryStats headers data).totalColumns = headers.length ∧
    (Client.prepareBarChartData data xColumn yColumn limit).length =
      min limit data.length ∧
    (Client.prepareScatterData data xColumn yColumn limit).length =
      min limit data.length := by
  refine ⟨rfl, rfl, ?_, ?_⟩
  · rw [prepareBarChartData_filter_id, length_mapIdxFrom, List.length_take]
  · rw [prepareScatterData_filter_id, List.length_map, List.length_take]

/-- Claim C5: the optimal-chart-type selector implements exactly the claimed
ordered cascade (`specChooseType`, transcribed from the claim's wording),
and 30 rows in which both columns parse as numeric at least 90% of the time
yield `scatter`. -/
theorem claim_C5 (data : List Row) (xColumn yColumn : String) :
    Client.getOptimalChartType data xColumn yColumn = specChooseType data xColumn yColumn ∧
    (data.length = 30 →
      (9 / 10 : ℚ) * (data.length : ℚ) ≤
        (Client.numericCount (data.map (fun r => getCell r xColumn)) : ℚ) →
      (9 / 10 : ℚ) * (data.length : ℚ) ≤
        (Client.numericCount (data.map (fun r => getCell r yColumn)) : ℚ) →
      Client.getOptimalChartType data xColumn yColumn = .scatter) := by
  constructor
  · by_cases hd : data = []
    · simp [Client.getOptimalChartType, specChooseType, hd]
    · have hne : data.length ≠ 0 := by simpa [List.length_eq_zero] using hd
      have hpos : (0 : ℚ) < (data.length : ℚ) := by
        exact_mod_cast Nat.pos_of_ne_zero hne
      simp only [Client.getOptimalChartType, specChooseType, if_neg hd, if_neg hne,
        List.length_map]
      have hbar : (((data.map (fun r => getCell r xColumn)).dedup.length : ℚ) <
            (data.length : ℚ) * (1 / 2)) ↔
          (((data.map (fun r => getCell r xColumn)).dedup.length : ℚ) /
            (data.length : ℚ) < 1 / 2) := by
        rw [div_lt_iff₀ hpos, mul_comm]
      exact if_congr Iff.rfl rfl (if_congr (and_congr hbar Iff.rfl) rfl
        (if_congr Iff.rfl rfl (if_congr and_comm rfl rfl)))
  · intro h30 hx hy
    have hne : data.length ≠ 0 := by rw [h30]; norm_num
    simp only [Client.getOptimalChartType, if_neg hne, List.length_map]
    rw [h30] at hx hy ⊢
    have hx27 : (27 : ℚ) ≤
        (Client.numericCount (data.map (fun r => getCell r xColumn)) : ℚ) := by
      calc (27 : ℚ) = 9 / 10 * ((30 : ℕ) : ℚ) := by norm_num
      _ ≤ _ := hx
    have hy27 : (27 : ℚ) ≤
        (Client.numericCount (data.map (fun r => getCell r yColumn)) : ℚ) := by
      calc (27 : ℚ) = 9 / 10 * ((30 : ℕ) : ℚ) := by norm_num
      _ ≤ _ := hy
    have h30q : ((30 : ℕ) : ℚ) = (30 : ℚ) := by norm_num
    have hcond : ((Client.numericCount (data.map (fun r => getCell r xColumn)) : ℚ) /
          ((30 : ℕ) : ℚ) > 4 / 5) ∧
        ((Client.numericCount (data.map (fun r => getCell r yColumn)) : ℚ) /
          ((30 : ℕ) : ℚ) > 4 / 5) ∧ (30 : ℕ) > 20 := by
      refine ⟨?_, ?_, by norm_num⟩
      · rw [gt_iff_lt, lt_div_iff₀ (by norm_num [h30q] : (0:ℚ) < ((30 : ℕ) : ℚ))]
        rw [h30q]
        linarith
      · rw [gt_iff_lt, lt_div_iff₀ (by norm_num [h30q] : (0:ℚ) < ((30 : ℕ) : ℚ))]
        rw [h30q]
        linarith
    rw [if_pos hcond]

/-- Claim C5, witness: 30 rows of numeric cells (fractions 100% ≥ 90%)
produce `scatter`. -/
theorem claim_C5_witness :
    Client.getOptimalChartType
      ((List.range 30).map (fun i => [("X", RawValue.num i), ("Y", RawValue.num i)]))
      "X" "Y" = .scatter := by
  refine (claim_C5 _ "X" "Y").2 (by decide) (by decide) (by decide)

/-- Claim C7: type inference discards null/undefined/empty entries, returns
`text` when none remain, applies the boolean, number and date checks in that
order with the strict 0.8 threshold (`specDetectColumnType`, transcribed from
the claim), and a column consisting entirely of `"1"`/`"0"` strings
classifies as boolean, not number. -/
theorem claim_C7 (values : List RawValue) (parseDate : String → Bool) :
    Client.detectColumnType values parseDate = specDetectColumnType values parseDate ∧
    (values ≠ [] → (∀ v ∈ values, v = RawValue.str "1" ∨ v = RawValue.str "0") →
      Client.detectColumnType values parseDate = "boolean") := by
  constructor
  · by_cases h0 : values.filter isNonNull = []
    · have h0' : (values.filter isNonNull).length = 0 := by rw [h0]; rfl
      simp [Client.detectColumnType, specDetectColumnType, h0, h0']
    · have h0' : (values.filter isNonNull).length ≠ 0 := by
        simpa [List.length_eq_zero] using h0
      simp only [Client.detectColumnType, specDetectColumnType, if_neg h0, if_neg h0']
      rw [mul_comm ((values.filter isNonNull).length : ℚ) ((4 : ℚ) / 5)]
  · intro hne hall
    have hfil : values.filter isNonNull = values :=
      List.filter_eq_self.mpr (fun v hv => by rcases hall v hv with rfl | rfl <;> decide)
    have hlen : (values.filter isNonNull).length ≠ 0 := by
      rw [hfil]
      simpa [List.length_eq_zero] using hne
    have hboolfil : (values.filter isNonNull).filter Client.isBooleanToken = values := by
      rw [hfil]
      exact List.filter_eq_self.mpr
        (fun v hv => by rcases hall v hv with rfl | rfl <;> decide)
    have hvpos : (0 : ℚ) < (values.length : ℚ) := by
      exact_mod_cast List.length_pos.mpr hne
    have hcond : (((values.filter isNonNull).filter Client.isBooleanToken).length : ℚ) >
        ((values.filter isNonNull).length : ℚ) * (4 / 5) := by
      rw [hboolfil, hfil]
      linarith
    simp only [Client.detectColumnType, if_neg hlen]
    rw [if_pos hcond]

/-- Claim C7, witness: the concrete column `["1","0","1"]` classifies as
boolean. -/
theorem claim_C7_witness :
    Client.detectColumnType [.str "1", .str "0", .str "1"] (fun _ => false) = "boolean" := by
  refine (claim_C7 [.str "1", .str "0", .str "1"] (fun _ => false)).2 (by decide) ?_
  intro v hv
  fin_cases hv
  · exact .inl rfl
  · exact .inr rfl
  · exact .inl rfl

/-- Claim C8, counterexample: with an empty header list and one (empty) row,
`totalRecords > 0` but `totalRecords * totalColumns = 0`, so the JS quality
formula divides zero by zero and `dataQuality` is `NaN` (modelled `none`) —
not an integer in `[0,100]`, and not 100 although there are zero missing
values. -/
theorem claim_C8_counterexample :
    (Server.calculateSummaryStats [] [[]]).dataQuality = none ∧
    (Server.calculateSummaryStats [] [[]]).missingValues = 0 := by
  exact ⟨by decide, by decide⟩

/-- A column misses at most one cell per row. -/
theorem columnMissing_le (data : List Row) (h : String) :
    Server.columnMissing data h ≤ data.length := by
  unfold Server.columnMissing
  simp only [List.length_map]
  omega

/-- The total number of missing cells is at most rows × columns. -/
theorem missingValues_le (headers : List String) (data : List Row) :
    (Server.calculateSummaryStats headers data).missingValues ≤
      data.length * headers.length := by
  show ((headers.map (Server.columnMissing data)).sum ≤ data.length * headers.length)
  induction headers with
  | nil => simp
  | cons h hs ih =>
    simp only [List.map_cons, List.sum_cons, List.length_cons]
    have hc := columnMissing_le data h
    calc Server.columnMissing data h + (hs.map (Server.columnMissing data)).sum
        ≤ data.length + data.length * hs.length := Nat.add_le_add hc ih
    _ = data.length * (hs.length + 1) := by ring

/-- `Math.round` of a rational in `[0, 100]` lies in `[0, 100]`. -/
theorem jsRound_bounds {q : ℚ} (h0 : 0 ≤ q) (h1 : q ≤ 100) :
    0 ≤ jsRound q ∧ jsRound q ≤ 100 := by
  constructor
  · rw [jsRound, Int.le_floor]
    push_cast
    linarith
  · have hlt : jsRound q < 101 := by
      rw [jsRound, Int.floor_lt]
      push_cast
      linarith
    omega

/-- The quality formula actually computed when rows and headers are both
nonempty. -/
theorem dataQuality_eq (headers : List String) (data : List Row) (hd : data ≠ [])
    (hh : headers ≠ []) :
    (Server.calculateSummaryStats headers data).dataQuality =
      some (jsRound ((((data.length : ℚ) * (headers.length : ℚ) -
          ((Server.calculateSummaryStats headers data).missingValues : ℚ)) /
        ((data.length : ℚ) * (headers.length : ℚ))) * 100)) := by
  have hlen : data.length > 0 := List.length_pos.mpr hd
  have hprod : ¬ (data.length * headers.length = 0) :=
    Nat.mul_ne_zero (by omega) (by simpa [List.length_eq_zero] using hh)
  simp only [Server.calculateSummaryStats, if_pos hlen, if_neg hprod]

/-- Claim C8, amended: `dataQuality` is the rounded percentage of non-missing
cells and lies in `[0,100]`, is 100 for an empty dataset and 100 when no
value is missing — provided the header list is nonempty or there are no rows;
with an empty header list and at least one row the JS computation instead
yields `NaN` (see the counterexample). -/
theorem claim_C8_amended (headers : List String) (data : List Row) :
    (data = [] → (Server.calculateSummaryStats headers data).dataQuality = some 100) ∧
    ((Server.calculateSummaryStats headers data).missingValues = 0 → data ≠ [] →
      headers ≠ [] → (Server.calculateSummaryStats headers data).dataQuality = some 100) ∧
    (data ≠ [] → headers ≠ [] → ∃ q : Int,
      (Server.calculateSummaryStats headers data).dataQuality = some q ∧
      0 ≤ q ∧ q ≤ 100 ∧
      q = jsRound ((((data.length : ℚ) * (headers.length : ℚ) -
          ((Server.calculateSummaryStats headers data).missingValues : ℚ)) /
        ((data.length : ℚ) * (headers.length : ℚ))) * 100)) := by
  have third : data ≠ [] → headers ≠ [] → ∃ q : Int,
      (Server.calculateSummaryStats headers data).dataQuality = some q ∧
      0 ≤ q ∧ q ≤ 100 ∧
      q = jsRound ((((data.length : ℚ) * (headers.length : ℚ) -
          ((Server.calculateSummaryStats headers data).missingValues : ℚ)) /
        ((data.length : ℚ) * (headers.length : ℚ))) * 100) := by
    intro hd hh
    have hP : (0 : ℚ) < (data.length : ℚ) * (headers.length : ℚ) := by
      have h1 : 0 < data.length := List.length_pos.mpr hd
      have h2 : 0 < headers.length := List.length_pos.mpr hh
      have := Nat.mul_pos h1 h2
      exact_mod_cast this
    have hM : ((Server.calculateSummaryStats headers data).missingValues : ℚ) ≤
        (data.length : ℚ) * (headers.length : ℚ) := by
      have := missingValues_le headers data
      exact_mod_cast this
    have hM0 : (0 : ℚ) ≤ ((Server.calculateSummaryStats headers data).missingValues : ℚ) := by
      positivity
    have hratio0 : (0 : ℚ) ≤ (((data.length : ℚ) * (headers.length : ℚ) -
        ((Server.calculateSummaryStats headers data).missingValues : ℚ)) /
      ((data.length : ℚ) * (headers.length : ℚ))) := by
      apply div_nonneg (by linarith) (le_of_lt hP)
    have hratio1 : ((((data.length : ℚ) * (headers.length : ℚ) -
        ((Server.calculateSummaryStats headers data).missingValues : ℚ)) /
      ((data.length : ℚ) * (headers.length : ℚ)))) ≤ 1 := by
      rw [div_le_one hP]
      linarith
    have hb := jsRound_bounds (q := (((data.length : ℚ) * (headers.length : ℚ) -
        ((Server.calculateSummaryStats headers data).missingValues : ℚ)) /
      ((data.length : ℚ) * (headers.length : ℚ))) * 100)
      (by positivity) (by nlinarith)
    exact ⟨_, dataQuality_eq headers data hd hh, hb.1, hb.2, rfl⟩
  refine ⟨?_, ?_, third⟩
  · intro hd
    have : data.length = 0 := by simp [hd]
    simp only [Server.calculateSummaryStats, this]
    rfl
  · intro hmiss hd hh
    obtain ⟨q, hsome, _, _, hform⟩ := third hd hh
    rw [hsome, hform, hmiss]
    have hPne : (data.length : ℚ) * (headers.length : ℚ) ≠ 0 := by
      have h1 : 0 < data.length := List.length_pos.mpr hd
      have h2 : 0 < headers.length := List.length_pos.mpr hh
      have := Nat.mul_pos h1 h2
      positivity
    rw [Nat.cast_zero, sub_zero, div_self hPne, one_mul]
    have h100 : jsRound 100 = 100 := by
      rw [jsRound, Int.floor_eq_iff]
      norm_num
    rw [h100]

/-- Claim C8, witness: a one-column one-row dataset with no missing cell has
quality 100. -/
theorem claim_C8_witness :
    (Server.calculateSummaryStats ["a"] [[("a", .str "x")]]).dataQuality = some 100 :=
  (claim_C8_amended ["a"] [[("a", .str "x")]]).2.1 (by decide) (by decide) (by decide)

/-- Claim C9, counterexample: on the all-text column `["a","b","a"]` the
server statistics take the text branch and compute `mode = "a"`, but emit no
`averageLength` field — the claim that the text branch always contains both
fields fails on the server implementation. -/
theorem claim_C9_counterexample :
    (Server.calculateColumnStatistics [.str "a", .str "b", .str "a"]).mode = some "a" ∧
    (Server.calculateColumnStatistics [.str "a", .str "b", .str "a"]).averageLength = none := by
  exact ⟨by decide, by decide⟩

/-- Claim C9, amended: whenever the text branch applies, `mode` is present
and is a value of maximal frequency over the string forms (ties resolved by
the frequency map's enumeration order); `averageLength` — the mean character
length of the non-null values' string forms — is present in the client
implementation only; the server text branch emits `mode` alone. -/
theorem claim_C9_amended (values : List RawValue) :
    ((values.filter isNonNull).filterMap toNumeric = [] → values.filter isNonNull ≠ [] →
      (∃ m, (Server.calculateColumnStatistics values).mode = some m ∧
        ∀ v ∈ values.filter isNonNull,
          List.count (jsString v) ((values.filter isNonNull).map jsString) ≤
            List.count m ((values.filter isNonNull).map jsString)) ∧
      (Server.calculateColumnStatistics values).averageLength = none) ∧
    (values.filter isNonNull ≠ [] →
      (∃ m, (Client.calculateColumnStatistics values "text").mode = some m ∧
        ∀ v ∈ values.filter isNonNull,
          List.count (jsString v) ((values.filter isNonNull).map jsString) ≤
            List.count m ((values.filter isNonNull).map jsString)) ∧
      (Client.calculateColumnStatistics values "text").averageLength =
        some ((((values.filter isNonNull).map (fun v => (jsString v).length)).sum : ℚ) /
          ((values.filter isNonNull).length : ℚ))) := by
  constructor
  · intro hnum hne
    have h1 : ¬ ((values.filter isNonNull).filterMap toNumeric).length > 0 := by
      rw [hnum]
      simp
    have h2 : (values.filter isNonNull).length > 0 := List.length_pos.mpr hne
    obtain ⟨m, hm, hmax⟩ := textMode_spec hne
    simp only [Server.calculateColumnStatistics, if_neg h1, if_pos h2]
    exact ⟨⟨m, hm, hmax⟩, trivial⟩
  · intro hne
    have h1 : ¬ (("text" : String) = "number" ∧
        ((values.filter isNonNull).filterMap toNumericClient).length > 0) := by
      intro hand
      exact absurd hand.1 (by decide)
    obtain ⟨m, hm, hmax⟩ := textMode_spec hne
    simp only [Client.calculateColumnStatistics, if_neg h1, if_pos rfl]
    exact ⟨⟨m, hm, hmax⟩, rfl⟩

/-- Claim C9, witness: a concrete client text column `["x","x","yz"]` has
mode `"x"` and average length 4/3. -/
theorem claim_C9_witness :
    (Client.calculateColumnStatistics [.str "x", .str "x", .str "yz"] "text").averageLength =
      some (4 / 3) := by
  have h := ((claim_C9_amended [.str "x", .str "x", .str "yz"]).2 (by decide)).2
  rw [h]
  decide

/-- Claim C10: in the bar projection a row whose x-cell is any falsy value —
`0`, `false`, the empty string, not only null/absent — receives the
synthetic name `"Item {index+1}"`, and the pie projection groups such rows
under `"Unknown"`; a legitimate `0` or `false` is indistinguishable from a
missing cell in these outputs. -/
theorem claim_C10 (data : List Row) (xColumn yColumn column : String) (limit i : Nat)
    (row : Row) :
    (data[i]? = some row → i < limit → jsFalsy (getCell row xColumn) = true →
      ((Client.prepareBarChartData data xColumn yColumn limit)[i]?).map ChartDataPoint.name =
        some ("Item " ++ toString (i + 1))) ∧
    (jsFalsy (getCell row column) = true → Client.pieKey (getCell row column) = "Unknown") ∧
    (jsFalsy (.num 0) = true ∧ jsFalsy (.bool false) = true ∧ jsFalsy (.str "") = true ∧
      jsFalsy .null = true) := by
  refine ⟨?_, ?_, by decide⟩
  · intro hrow hi hf
    rw [prepareBarChartData_filter_id, getElem?_mapIdxFrom, List.getElem?_take,
      if_pos hi, hrow]
    simp [Client.barPointOf, hf]
  · intro hf
    simp [Client.pieKey, hf]

/-- Claim C10, witness: a row whose x-cell is the number 0 gets the synthetic
bar name `"Item 1"` and the pie group `"Unknown"`. -/
theorem claim_C10_witness :
    ((Client.prepareBarChartData [[("X", .num 0), ("Y", .str "7")]] "X" "Y" 20)[0]?).map
        ChartDataPoint.name = some ("Item " ++ toString (0 + 1)) ∧
    Client.pieKey (getCell [("X", RawValue.num 0), ("Y", RawValue.str "7")] "X") =
      "Unknown" := by
  refine ⟨(claim_C10 [[("X", .num 0), ("Y", .str "7")]] "X" "Y" "X" 20 0
      [("X", RawValue.num 0), ("Y", RawValue.str "7")]).1 (by decide) (by decide) (by decide),
    (claim_C10 [[("X", .num 0), ("Y", .str "7")]] "X" "Y" "X" 20 0
      [("X", RawValue.num 0), ("Y", RawValue.str "7")]).2.1 (by decide)⟩

/-- Claim C6, counterexample: JS object keys that look like array indices
enumerate in ascending numeric order, not insertion order. Grouping the
column values `"5","5","3","3"` inserts `"5"` first, yet `Object.entries`
yields `("3",2)` before `("5",2)`; the count tie is preserved by the stable
sort, so the output is `[{3,2},{5,2}]` — not the first-seen order
`[{5,2},{3,2}]` the claim requires. -/
theorem claim_C6_counterexample :
    Client.preparePieChartData
        [[("C", .str "5")], [("C", .str "5")], [("C", .str "3")], [("C", .str "3")]] "C" 8 =
      [{ name := "3", value := some 2 }, { name := "5", value := some 2 }] ∧
    countsList (Client.pieKeysOf
        [[("C", .str "5")], [("C", .str "5")], [("C", .str "3")], [("C", .str "3")]] "C") =
      [("5", 2), ("3", 2)] := by
  exact ⟨by decide, by decide⟩

/-- Claim C6, amended: the pie projection returns at most `limit` points,
each point's value is its group's occurrence count, the points are sorted by
value descending, the sum of values never exceeds the row count, and ties
preserve the enumeration order of the underlying frequency map — which is JS
object key order: integer-like keys ascending first, then first-seen order —
rather than plain first-seen order; over `["A","A","B"]` with limit 8 the
result is `[{A,2},{B,1}]`. -/
theorem claim_C6_amended (data : List Row) (column : String) (limit : Nat) :
    (Client.preparePieChartData data column limit).length ≤ limit ∧
    (∀ p ∈ Client.preparePieChartData data column limit,
      p.value = some ((List.count p.name (Client.pieKeysOf data column) : ℚ))) ∧
    (Client.preparePieChartData data column limit).Pairwise
      (fun p q => q.value.getD 0 ≤ p.value.getD 0) ∧
    ((Client.preparePieChartData data column limit).map (fun p => p.value.getD 0)).sum ≤
      (data.length : ℚ) ∧
    (∀ c : Nat, List.Sublist
      (((Client.pieSortedEntries data column).take limit).filter (fun e => decide (e.2 = c)))
      ((Client.pieEntries data column).filter (fun e => decide (e.2 = c)))) ∧
    Client.preparePieChartData [[("C", .str "A")], [("C", .str "A")], [("C", .str "B")]]
        "C" 8 =
      [{ name := "A", value := some 2 }, { name := "B", value := some 1 }] := by
  have hperm : List.Perm (Client.pieSortedEntries data column)
      (countsList (Client.pieKeysOf data column)) :=
    (sortBy_perm _ _).trans (entriesJS_perm _)
  refine ⟨?_, ?_, ?_, ?_, ?_, by decide⟩
  · simp only [Client.preparePieChartData, List.length_map, List.length_take]
    exact min_le_left _ _
  · intro p hp
    simp only [Client.preparePieChartData] at hp
    obtain ⟨e, he, rfl⟩ := List.mem_map.mp hp
    have hmem : e ∈ countsList (Client.pieKeysOf data column) :=
      hperm.mem_iff.mp ((List.take_sublist _ _).subset he)
    have := countsList_count_of_mem hmem
    simp only
    rw [← this]
  · have hsorted := @sortBy_pairwise (String × Nat)
      (fun a b => decide (b.2 ≤ a.2))
      (fun a b c hab hbc => by
        simp only [decide_eq_true_eq] at hab hbc ⊢
        omega)
      (fun a b hab => by
        simp only [decide_eq_false_iff_not, decide_eq_true_eq] at hab ⊢
        omega)
      (Client.pieEntries data column)
    have htake : ((Client.pieSortedEntries data column).take limit).Pairwise
        (fun a b : String × Nat => decide (b.2 ≤ a.2) = true) :=
      List.Pairwise.sublist (List.take_sublist _ _) hsorted
    simp only [Client.preparePieChartData]
    refine List.pairwise_map.mpr (htake.imp ?_)
    intro a b hab
    simp only [decide_eq_true_eq] at hab
    simp only [Option.getD_some]
    exact_mod_cast hab
  · simp only [Client.preparePieChartData, List.map_map]
    have hmapeq : ((Client.pieSortedEntries data column).take limit).map
        ((fun p : ChartDataPoint => p.value.getD 0) ∘
          (fun e : String × Nat => ({ name := e.1, value := some (e.2 : ℚ) }))) =
        (((Client.pieSortedEntries data column).take limit).map Prod.snd).map
          (fun n : Nat => (n : ℚ)) := by
      simp [Function.comp_def]
    rw [hmapeq]
    have hsum : ((((Client.pieSortedEntries data column).take limit).map Prod.snd).map
        (fun n : Nat => (n : ℚ))).sum =
        (((((Client.pieSortedEntries data column).take limit).map Prod.snd).sum : Nat) : ℚ) := by
      rw [Nat.cast_list_sum]
    rw [hsum]
    have hle : (((Client.pieSortedEntries data column).take limit).map Prod.snd).sum ≤
        data.length := by
      have hsplit := List.take_append_drop limit (Client.pieSortedEntries data column)
      have htot : ((Client.pieSortedEntries data column).map Prod.snd).sum = data.length := by
        rw [(hperm.map Prod.snd).sum_eq, countsList_sum]
        simp [Client.pieKeysOf]
      calc (((Client.pieSortedEntries data column).take limit).map Prod.snd).sum
          ≤ (((Client.pieSortedEntries data column).take limit).map Prod.snd).sum +
            (((Client.pieSortedEntries data column).drop limit).map Prod.snd).sum :=
            Nat.le_add_right _ _
      _ = ((Client.pieSortedEntries data column).map Prod.snd).sum := by
            rw [← List.sum_append, ← List.map_append, hsplit]
      _ = data.length := htot
    exact_mod_cast hle
  · intro c
    have hfs := filter_sortBy_count (Client.pieEntries data column) c
    have hsub : List.Sublist
        (((Client.pieSortedEntries data column).take limit).filter (fun e => decide (e.2 = c)))
        ((Client.pieSortedEntries data column).filter (fun e => decide (e.2 = c))) :=
      List.Sublist.filter _ (List.take_sublist _ _)
    rw [show (Client.pieSortedEntries data column).filter (fun e => decide (e.2 = c)) =
        (Client.pieEntries data column).filter (fun e => decide (e.2 = c)) from hfs] at hsub
    exact hsub
